import Mathlib

/-!
Shallow embedding of `week1/src/clabby.rs`: a lexer turning a terminal
transcript into a command sequence, a tree builder replaying those commands,
and the size queries `size` and `prunable_size` over the resulting
filesystem tree.  The shared ownership of entries
(`Rc<RefCell<FSEntry>>`) is modelled by a heap (`List FSEntryNode`)
addressed by natural-number ids, and the value tree `FSEntry` is the heap
tree with all ids dereferenced.
-/

namespace Clabby

/-- Splits a list of characters at every character satisfying `p`, keeping
empty pieces, as Rust's `str::split` does (splitting the empty string yields
one empty piece). -/
def splitPred (p : Char → Bool) : List Char → List (List Char)
  | [] => [[]]
  | c :: cs =>
    if p c then [] :: splitPred p cs
    else
      match splitPred p cs with
      | [] => [[c]]
      | g :: gs => (c :: g) :: gs

/-- Model of Rust `input.split(NEWLINE)` with `NEWLINE = '\n'`. -/
def splitNewline (s : String) : List String :=
  (splitPred (fun c => c = '\n') s.data).map String.mk

/-- Model of Rust `str::split_whitespace`: split on whitespace and drop the
empty substrings. -/
def split_whitespace (s : String) : List String :=
  ((splitPred Char.isWhitespace s.data).filter (fun l => l ≠ [])).map String.mk

/-- Model of Rust `line.starts_with(CMD_DELIMITER)` with `CMD_DELIMITER = '$'`. -/
def startsWithDelim (s : String) : Bool :=
  match s.data with
  | [] => false
  | c :: _ => c = '$'

/-- Model of Rust `str::parse::<usize>()`: an optional leading `+`, then one
or more ASCII digits, rejecting values that overflow a 64-bit `usize`. -/
def parse_usize (s : String) : Option Nat :=
  let cs := match s.data with
    | '+' :: rest => rest
    | cs => cs
  if cs = [] then none
  else if cs.all Char.isDigit then
    let v := cs.foldl (fun acc c => acc * 10 + (c.toNat - 48)) 0
    if v < 2 ^ 64 then some v else none
  else none

/-- Rust `CommandKind`: the two commands appearing in the transcript. -/
inductive CommandKind where
  | Cd (target : String)
  | Ls
  deriving DecidableEq

/-- Rust `Command`: an executed command together with its captured output
lines. -/
structure Command where
  kind : CommandKind
  output : List String
  deriving DecidableEq

/-- Rust `CommandKind::try_from`: parse a command line `$ <command> [args]`.
The token after the delimiter must be `cd` (with one argument) or `ls`. -/
def CommandKind.tryFrom (value : String) : Except String CommandKind :=
  let split := split_whitespace value
  match split.get? 1 with
  | none => .error "Failed to parse command"
  | some cmd =>
    if cmd = "cd" then
      match split.get? 2 with
      | none => .error "Failed to parse command arguments"
      | some target => .ok (.Cd target)
    else if cmd = "ls" then .ok .Ls
    else .error "Invalid command"

/-- The loop of Rust `lex`, rendered structurally over the line queue:
`kind` is the command parsed from the most recently popped command line and
`output` holds the output lines collected for it so far.  A line that does
not start with the delimiter is pushed onto the output of the current
command; a delimiter line finishes the current command and starts the next
one.  (The Rust loop parses a command line into a `CommandKind` after
collecting its output rather than before; commands are processed strictly
in line order either way, so the same first invalid command line produces
the same error, and successful results agree.) -/
def lexStep (kind : CommandKind) (output : List String) :
    List String → Except String (List Command)
  | [] => .ok [⟨kind, output⟩]
  | line :: rest =>
    if startsWithDelim line then
      match CommandKind.tryFrom line with
      | .error e => .error e
      | .ok kind' =>
        match lexStep kind' [] rest with
        | .error e => .error e
        | .ok cmds => .ok (⟨kind, output⟩ :: cmds)
    else lexStep kind (output ++ [line]) rest

/-- Rust `lex`, acting on the line queue produced by `splitNewline`: the
front line is popped and parsed as a command line (whatever it looks like),
and the remaining lines are distributed among the commands by `lexStep`. -/
def lexLines : List String → Except String (List Command)
  | [] => .ok []
  | command :: rest =>
    match CommandKind.tryFrom command with
    | .error e => .error e
    | .ok kind => lexStep kind [] rest

/-- Rust `lex`: split the raw transcript on newlines and parse the ordered
command sequence. -/
def lex (input : String) : Except String (List Command) :=
  lexLines (splitNewline input)

/-- Rust `FSEntry` with the `Rc` indirections of the `children` field
resolved to plain values: the tree the size queries read after
construction. -/
inductive FSEntry where
  | mk (name : String) (children : Option (List FSEntry)) (implicit_size : Option Nat)

/-- Field `name` of an `FSEntry`. -/
def FSEntry.name : FSEntry → String
  | .mk n _ _ => n

/-- Field `children` of an `FSEntry`. -/
def FSEntry.children : FSEntry → Option (List FSEntry)
  | .mk _ c _ => c

/-- Field `implicit_size` of an `FSEntry`. -/
def FSEntry.implicit_size : FSEntry → Option Nat
  | .mk _ _ s => s

mutual

/-- Rust `FSEntry::size`: an entry with an `implicit_size` reports it; a
directory sums the sizes of its children; an entry with neither reports 0. -/
def FSEntry.size : FSEntry → Nat
  | .mk _ children implicit_size =>
    match implicit_size with
    | some s => s
    | none =>
      match children with
      | some cs => FSEntry.sizeSum cs
      | none => 0

/-- Rust `children.iter().map(|c| c.borrow().size()).sum()`. -/
def FSEntry.sizeSum : List FSEntry → Nat
  | [] => 0
  | c :: cs => c.size + FSEntry.sizeSum cs

end

mutual

/-- Rust `FSEntry::prunable_size`: over the children that are directories
with `size ≤ 100000`, sum the child's size plus its own `prunable_size`. -/
def FSEntry.prunable_size : FSEntry → Nat
  | .mk _ children _ =>
    match children with
    | some cs => FSEntry.prunableSum cs
    | none => 0

/-- Rust `children.iter().filter(small directory).map(|c| c.size() + c.prunable_size()).sum()`. -/
def FSEntry.prunableSum : List FSEntry → Nat
  | [] => 0
  | c :: cs =>
    (if c.size ≤ 100000 ∧ c.children.isSome then c.size + c.prunable_size else 0) +
      FSEntry.prunableSum cs

end

/-- Heap id of a shared entry: the model of a `SharedFSEntry`
(`Rc<RefCell<FSEntry>>`) handle. -/
abbrev SharedId := Nat

/-- Rust `FSEntry` as it lives during construction: the `children` list
holds heap ids of shared entries. -/
structure FSEntryNode where
  name : String
  children : Option (List SharedId)
  implicit_size : Option Nat
  deriving DecidableEq

/-- Dummy node used to totalise heap lookups; never reached from
`build_fs`, which only dereferences ids of allocated entries. -/
def dummyNode : FSEntryNode := ⟨"", none, none⟩

/-- State of the `build_fs` replay loop: the heap of allocated entries (the
root is always id 0), the `current_context` id, the current `depth`, and
the `entries_at_depth` map. -/
structure BuildState where
  arena : List FSEntryNode
  current : SharedId
  depth : Nat
  entries_at_depth : Nat → Option SharedId

/-- Body of the `for o in command.output` loop of `build_fs`: split the
line on whitespace, parse the size from the first token (a failed parse is
turned into `None` by `.ok()`, meaning a directory), take the name from the
second token, and build the child node. -/
def parseLsEntry (o : String) : Except String FSEntryNode :=
  let split := split_whitespace o
  match split.get? 0 with
  | none => .error "Failed to parse file size from `ls` output"
  | some t0 =>
    let size := parse_usize t0
    match split.get? 1 with
    | none => .error "Failed to parse file name from `ls` output"
    | some name =>
      let child_vec : Option (List SharedId) := if size.isSome then none else some []
      .ok ⟨name, child_vec, size⟩

/-- The `ls` loop of `build_fs`: allocate each parsed child at the end of
the heap and push its id onto the current children list, in line order. -/
def lsLoop : List String → List SharedId → List FSEntryNode →
    Except String (List SharedId × List FSEntryNode)
  | [], cs, arena => .ok (cs, arena)
  | o :: rest, cs, arena =>
    match parseLsEntry o with
    | .error e => .error e
    | .ok ent => lsLoop rest (cs ++ [arena.length]) (arena ++ [ent])

/-- One iteration of the `while let Some(command) = cmds.pop_front()` loop
of `build_fs`.  A `cd ..` at depth 0 fails; otherwise `cd ..` restores the
entry recorded at the next lower depth.  A `cd name` allocates a fresh
directory node; it is linked as a child, the depth incremented and the new
depth recorded only when the current entry is itself a directory (the
silent-skip edge case of the Rust code).  An `ls` parses each output line
into a child of the current entry, provided the current entry is a
directory. -/
def step (s : BuildState) (command : Command) : Except String BuildState :=
  match command.kind with
  | .Cd dir_name =>
    if dir_name = ".." then
      match s.depth with
      | 0 => .error "Attempted to move up from root directory"
      | d + 1 =>
        match s.entries_at_depth d with
        | none => .error "Failed to get entry at depth"
        | some e => .ok { s with depth := d, current := e }
    else
      let new_id : SharedId := s.arena.length
      let new_node : FSEntryNode := ⟨dir_name, some [], none⟩
      let cur := s.arena.getD s.current dummyNode
      match cur.children with
      | some cs =>
        .ok { arena := (s.arena.set s.current
                { cur with children := some (cs ++ [new_id]) }) ++ [new_node],
              current := new_id,
              depth := s.depth + 1,
              entries_at_depth := fun k =>
                if k = s.depth + 1 then some new_id else s.entries_at_depth k }
      | none =>
        .ok { s with arena := s.arena ++ [new_node], current := new_id }
  | .Ls =>
    let cur := s.arena.getD s.current dummyNode
    match cur.children with
    | none => .ok s
    | some cs =>
      match lsLoop command.output cs s.arena with
      | .error e => .error e
      | .ok (cs', arena') =>
        .ok { s with arena := arena'.set s.current { cur with children := some cs' } }

/-- The command loop of `build_fs`. -/
def replay (s : BuildState) : List Command → Except String BuildState
  | [] => .ok s
  | command :: rest =>
    match step s command with
    | .error e => .error e
    | .ok s' => replay s' rest

/-- State of the builder right after the root entry has been created from
the first `cd` command: the heap holds only the root (a directory whose
name is the `cd` target, with empty children and no declared size), the
depth is 0, and `entries_at_depth` maps 0 to the root. -/
def initState (dir_name : String) : BuildState :=
  { arena := [⟨dir_name, some [], none⟩],
    current := 0,
    depth := 0,
    entries_at_depth := fun k => if k = 0 then some 0 else none }

/-- Rust `build_fs`: the first command must be a `cd` (its target names the
root); the remaining commands are replayed; the result is the final heap,
with the root at id 0. -/
def build_fs (cmds : List Command) : Except String BuildState :=
  match cmds with
  | ⟨.Cd dir_name, _⟩ :: rest => replay (initState dir_name) rest
  | _ => .error "First command is not `cd`"

/-- Reads the value tree out of the heap, dereferencing child ids; `fuel`
bounds the recursion depth (children always carry larger ids than their
parent, so `arena.length` is always enough fuel for a built heap). -/
def toTree (arena : List FSEntryNode) : Nat → SharedId → FSEntry
  | 0, _ => .mk "" none none
  | fuel + 1, i =>
    match arena.getD i dummyNode with
    | ⟨n, some cs, sz⟩ => .mk n (some (cs.map (toTree arena fuel))) sz
    | ⟨n, none, sz⟩ => .mk n none sz

/-- The root entry of a finished build, as a value tree. -/
def rootEntry (s : BuildState) : FSEntry :=
  toTree s.arena s.arena.length 0

/-- End-to-end pipeline of the test `test_solution`: lex the transcript,
build the filesystem, and query `size` and `prunable_size` on the root. -/
def solve (input : String) : Option (Nat × Nat) :=
  match lex input with
  | .error _ => none
  | .ok cmds =>
    match build_fs cmds with
    | .error _ => none
    | .ok st => some ((rootEntry st).size, (rootEntry st).prunable_size)

/-- The canonical transcript of the spec: `PUZZLE_INPUT.trim()`. -/
def canonicalTranscript : String :=
  "$ cd /\n$ ls\ndir a\n14848514 b.txt\n8504156 c.dat\ndir d\n$ cd a\n$ ls\ndir e\n29116 f\n2557 g\n62596 h.lst\n$ cd e\n$ ls\n584 i\n$ cd ..\n$ cd ..\n$ cd d\n$ ls\n4060174 j\n8033020 d.log\n5626152 d.ext\n7214296 k"

/-- Specification of the whole `ls` loop: the child nodes parsed from the
output lines, in line order, stopping at the first bad line. -/
def parseLsEntries : List String → Except String (List FSEntryNode)
  | [] => .ok []
  | o :: rest =>
    match parseLsEntry o with
    | .error e => .error e
    | .ok ent =>
      match parseLsEntries rest with
      | .error e => .error e
      | .ok ents => .ok (ent :: ents)

/-- The command sequence the lexer produces for the canonical transcript. -/
def canonicalCommands : List Command :=
  [⟨.Cd "/", []⟩,
   ⟨.Ls, ["dir a", "14848514 b.txt", "8504156 c.dat", "dir d"]⟩,
   ⟨.Cd "a", []⟩,
   ⟨.Ls, ["dir e", "29116 f", "2557 g", "62596 h.lst"]⟩,
   ⟨.Cd "e", []⟩,
   ⟨.Ls, ["584 i"]⟩,
   ⟨.Cd "..", []⟩,
   ⟨.Cd "..", []⟩,
   ⟨.Cd "d", []⟩,
   ⟨.Ls, ["4060174 j", "8033020 d.log", "5626152 d.ext", "7214296 k"]⟩]

/-- The heap the builder produces for the canonical transcript (note the
duplicated sibling directories created by `cd` after `ls`: ids 5, 10, 12). -/
def canonicalArena : List FSEntryNode :=
  [⟨"/", some [1, 2, 3, 4, 5, 12], none⟩,
   ⟨"a", some [], none⟩,
   ⟨"b.txt", none, some 14848514⟩,
   ⟨"c.dat", none, some 8504156⟩,
   ⟨"d", some [], none⟩,
   ⟨"a", some [6, 7, 8, 9, 10], none⟩,
   ⟨"e", some [], none⟩,
   ⟨"f", none, some 29116⟩,
   ⟨"g", none, some 2557⟩,
   ⟨"h.lst", none, some 62596⟩,
   ⟨"e", some [11], none⟩,
   ⟨"i", none, some 584⟩,
   ⟨"d", some [13, 14, 15, 16], none⟩,
   ⟨"j", none, some 4060174⟩,
   ⟨"d.log", none, some 8033020⟩,
   ⟨"d.ext", none, some 5626152⟩,
   ⟨"k", none, some 7214296⟩]

/-- The final builder state for the canonical transcript. -/
def canonicalFinal : BuildState :=
  { arena := canonicalArena,
    current := 12,
    depth := 1,
    entries_at_depth := fun k =>
      if k = 1 then some 12
      else if k = 2 then some 10
      else if k = 1 then some 5
      else if k = 0 then some 0
      else none }

/-- The value tree of the canonical heap. -/
def canonicalTree : FSEntry :=
  .mk "/" (some
    [.mk "a" (some []) none,
     .mk "b.txt" none (some 14848514),
     .mk "c.dat" none (some 8504156),
     .mk "d" (some []) none,
     .mk "a" (some
       [.mk "e" (some []) none,
        .mk "f" none (some 29116),
        .mk "g" none (some 2557),
        .mk "h.lst" none (some 62596),
        .mk "e" (some [.mk "i" none (some 584)]) none]) none,
     .mk "d" (some
       [.mk "j" none (some 4060174),
        .mk "d.log" none (some 8033020),
        .mk "d.ext" none (some 5626152),
        .mk "k" none (some 7214296)]) none]) none

/-- Directory of total size 50, used as a descendant below a large
intermediate directory. -/
def smallUnderBig : FSEntry :=
  .mk "small" (some [.mk "f" none (some 50)]) none

/-- Intermediate directory of total size 200050 (above the 100000
threshold) containing `smallUnderBig`. -/
def bigIntermediate : FSEntry :=
  .mk "big" (some [.mk "huge.txt" none (some 200000), smallUnderBig]) none

/-- Entry whose only child is `bigIntermediate`; `smallUnderBig` is its
descendant directory at depth 2. -/
def outerWithBig : FSEntry :=
  .mk "outer" (some [bigIntermediate]) none

/-- Directory of total size exactly 100000. -/
def dirAtThreshold : FSEntry :=
  .mk "t" (some [.mk "f" none (some 100000)]) none

/-- Directory of total size 100001. -/
def dirAboveThreshold : FSEntry :=
  .mk "t" (some [.mk "f" none (some 100001)]) none

/-- Builder state at depth 1 (the root at id 0, the current directory `a`
at id 1), used to exercise the ascend transition. -/
def demoAscState : BuildState :=
  { arena := [⟨"/", some [1], none⟩, ⟨"a", some [], none⟩],
    current := 1,
    depth := 1,
    entries_at_depth := fun k => if k = 1 then some 1 else if k = 0 then some 0 else none }

/-- The two-command demo sequence `cd /` then `ls` over two entries. -/
def demoCmds : List Command :=
  [⟨.Cd "/", []⟩, ⟨.Ls, ["dir a", "100 b"]⟩]

/-- The builder state produced by `demoCmds`. -/
def demoFinal : BuildState :=
  { arena := [⟨"/", some [1, 2], none⟩, ⟨"a", some [], none⟩, ⟨"b", none, some 100⟩],
    current := 0,
    depth := 0,
    entries_at_depth := fun k => if k = 0 then some 0 else none }

/-- Exactly one of `children` and `implicit_size` is present: the node is a
file xor a directory. -/
def FileXorDir (e : FSEntryNode) : Prop :=
  (e.children.isSome ∧ ¬ e.implicit_size.isSome) ∨
  (¬ e.children.isSome ∧ e.implicit_size.isSome)

/-- Replay invariant: the current entry is a directory, and so is every
entry recorded in the depth map.  (A dangling id dereferences to
`dummyNode`, whose `children` is `none`, so these conditions also force
the ids to be live.) -/
def GoodState (s : BuildState) : Prop :=
  (s.arena.getD s.current dummyNode).children.isSome ∧
  ∀ d n, s.entries_at_depth d = some n → (s.arena.getD n dummyNode).children.isSome

theorem FSEntry.sizeSum_eq_map_sum (cs : List FSEntry) :
    FSEntry.sizeSum cs = (cs.map FSEntry.size).sum := by
  induction cs with
  | nil => rfl
  | cons c cs ih => simp [FSEntry.sizeSum, ih]

theorem FSEntry.prunableSum_eq_filter_map_sum (cs : List FSEntry) :
    FSEntry.prunableSum cs =
      ((cs.filter (fun c => decide (c.size ≤ 100000) && c.children.isSome)).map
        (fun c => c.size + c.prunable_size)).sum := by
  induction cs with
  | nil => rfl
  | cons c cs ih =>
    rw [FSEntry.prunableSum, ih, List.filter_cons]
    by_cases h : c.size ≤ 100000 ∧ c.children.isSome
    · simp [h.1, h.2]
    · rw [if_neg h]
      rcases Decidable.not_and_iff_or_not.mp h with h1 | h1 <;> simp [h1]

theorem FSEntry.prunableSum_append (xs ys : List FSEntry) :
    FSEntry.prunableSum (xs ++ ys) =
      FSEntry.prunableSum xs + FSEntry.prunableSum ys := by
  induction xs with
  | nil => simp [FSEntry.prunableSum]
  | cons c cs ih =>
    simp only [List.cons_append, FSEntry.prunableSum, List.append_eq, ih]
    omega

/-- C1: on the canonical transcript, `lex` followed by `build_fs` succeeds
and the resulting root entry has `size = 48381165` and
`prunable_size = 95437`. -/
theorem C1_canonical_transcript :
    solve canonicalTranscript = some (48381165, 95437) := by
  have h1 : lex canonicalTranscript = .ok canonicalCommands := rfl
  have h2 : build_fs canonicalCommands = .ok canonicalFinal := rfl
  have h3 : rootEntry canonicalFinal = canonicalTree := rfl
  have h4 : canonicalTree.size = 48381165 := by decide
  have h5 : canonicalTree.prunable_size = 95437 := by decide
  simp only [solve, h1, h2, h3, h4, h5]

/-- C2: a directory of total size 50 (well below the 100000 threshold)
nested below an intermediate directory of total size 200050 contributes
nothing to the outer entry's `prunable_size`, which is 0 — the recursion of
`prunable_size` never descends through a child that fails the filter, so
descendants below a large intermediate directory are never counted. -/
theorem C2_small_under_big_contributes_nothing :
    outerWithBig.prunable_size = 0 ∧
    smallUnderBig.size = 50 ∧
    smallUnderBig.children.isSome ∧
    100000 < bigIntermediate.size := by decide

/-- C3 counterexample: lexing the empty input does not return an empty
command sequence. -/
theorem C3_counterexample : ¬ (lex "" = Except.ok ([] : List Command)) := by
  have h0 : lex "" = .error "Failed to parse command" := rfl
  intro h
  rw [h0] at h
  exact Except.noConfusion h

/-- C3 amended: lexing an empty input (zero lines, i.e. the empty string,
whose newline split is a single empty line, or a single blank line, whose
split is two empty lines) fails in the lexer itself with the
`Failed to parse command` error, because the first line is always popped
and parsed as a command line; the builder's missing-root failure is never
reached on such input. -/
theorem C3_empty_input_lexer_fails :
    lex "" = .error "Failed to parse command" ∧
    lex "\n" = .error "Failed to parse command" :=
  ⟨rfl, rfl⟩

/-- C4: the size of an entry with a declared size is that declared size,
and the size of a directory is the sum of the sizes of its children. -/
theorem C4_size_of_file_and_directory (n : String) (c : Option (List FSEntry))
    (s : Nat) (cs : List FSEntry) :
    (FSEntry.mk n c (some s)).size = s ∧
    (FSEntry.mk n (some cs) none).size = (cs.map FSEntry.size).sum :=
  ⟨rfl, FSEntry.sizeSum_eq_map_sum cs⟩

/-- C6: `build_fs` fails with the invalid-root error on an empty command
sequence and whenever the first command is `Ls`; when the first command is
`Cd name`, the initial builder state holds exactly the root entry, a
directory named `name` with empty children and no declared size, as the
current entry at depth 0. -/
theorem C6_invalid_root (n : String) (out : List String) (rest : List Command) :
    build_fs [] = .error "First command is not `cd`" ∧
    build_fs (⟨.Ls, out⟩ :: rest) = .error "First command is not `cd`" ∧
    build_fs (⟨.Cd n, out⟩ :: rest) = replay (initState n) rest ∧
    (initState n).arena = [⟨n, some [], none⟩] ∧
    (initState n).current = 0 ∧
    (initState n).depth = 0 ∧
    (initState n).entries_at_depth 0 = some 0 :=
  ⟨rfl, rfl, rfl, rfl, rfl, rfl, rfl⟩

/-- C7: the `prunable_size` threshold is inclusive.  A directory child of
total size exactly 100000 contributes `100000 + its own prunable_size` to
its parent's `prunable_size`; a directory child of total size 100001
contributes nothing. -/
theorem C7_threshold_inclusive (n : String) (pre post : List FSEntry)
    (d : FSEntry) (hdir : d.children.isSome) :
    (d.size = 100000 →
      (FSEntry.mk n (some (pre ++ d :: post)) none).prunable_size =
        (FSEntry.mk n (some (pre ++ post)) none).prunable_size +
          (100000 + d.prunable_size)) ∧
    (d.size = 100001 →
      (FSEntry.mk n (some (pre ++ d :: post)) none).prunable_size =
        (FSEntry.mk n (some (pre ++ post)) none).prunable_size) := by
  have hmk : ∀ l : List FSEntry,
      (FSEntry.mk n (some l) none).prunable_size = FSEntry.prunableSum l :=
    fun _ => rfl
  have hcons : ∀ x : FSEntry, ∀ l : List FSEntry, FSEntry.prunableSum (x :: l) =
      (if x.size ≤ 100000 ∧ x.children.isSome then x.size + x.prunable_size else 0) +
        FSEntry.prunableSum l :=
    fun _ _ => rfl
  constructor
  · intro hsize
    rw [hmk, hmk, FSEntry.prunableSum_append, FSEntry.prunableSum_append, hcons, hsize,
      if_pos ⟨le_refl 100000, hdir⟩]
    omega
  · intro hsize
    rw [hmk, hmk, FSEntry.prunableSum_append, FSEntry.prunableSum_append, hcons, hsize,
      if_neg (fun h => absurd h.1 (by omega))]
    omega

/-- Witness for C7 at a parent with a single directory child of total size
100000 (included) and at one with a single child of total size 100001
(excluded). -/
theorem C7_threshold_inclusive_witness :
    (FSEntry.mk "p" (some ([] ++ dirAtThreshold :: [])) none).prunable_size =
      (FSEntry.mk "p" (some ([] ++ [])) none).prunable_size +
        (100000 + dirAtThreshold.prunable_size) ∧
    (FSEntry.mk "p" (some ([] ++ dirAboveThreshold :: [])) none).prunable_size =
      (FSEntry.mk "p" (some ([] ++ [])) none).prunable_size :=
  ⟨(C7_threshold_inclusive "p" [] [] dirAtThreshold (by decide)).1 (by decide),
   (C7_threshold_inclusive "p" [] [] dirAboveThreshold (by decide)).2 (by decide)⟩

/-- C5: replaying a remaining `cd ..` at depth 0 makes the whole replay
fail with the ascend-past-root error (never a silent no-op); a `cd ..` at
depth `d + 1` decrements the depth to `d` and restores the current entry
to the one recorded at depth `d`. -/
theorem C5_ascend_behaviour (s : BuildState) (out : List String)
    (rest : List Command) :
    (s.depth = 0 →
      replay s (⟨.Cd "..", out⟩ :: rest) =
        .error "Attempted to move up from root directory") ∧
    (∀ d e, s.depth = d + 1 → s.entries_at_depth d = some e →
      step s ⟨.Cd "..", out⟩ = .ok { s with depth := d, current := e }) := by
  constructor
  · intro h0
    simp [replay, step, h0]
  · intro d e hd he
    simp [step, hd, he]

/-- Witness for C5: a `cd ..` right after `cd /` aborts the build, and a
`cd ..` in the depth-1 demo state restores the root as current entry. -/
theorem C5_ascend_behaviour_witness :
    replay (initState "/") [⟨.Cd "..", []⟩] =
      .error "Attempted to move up from root directory" ∧
    step demoAscState ⟨.Cd "..", []⟩ =
      .ok { demoAscState with depth := 0, current := 0 } :=
  ⟨(C5_ascend_behaviour (initState "/") [] []).1 rfl,
   (C5_ascend_behaviour demoAscState [] []).2 0 0 rfl rfl⟩

theorem lsLoop_eq (lines : List String) (cs : List SharedId)
    (arena : List FSEntryNode) :
    lsLoop lines cs arena =
      match parseLsEntries lines with
      | .error e => .error e
      | .ok ents =>
        .ok (cs ++ List.range' arena.length ents.length, arena ++ ents) := by
  induction lines generalizing cs arena with
  | nil => simp [lsLoop, parseLsEntries]
  | cons o rest ih =>
    cases hp : parseLsEntry o with
    | error e => simp [lsLoop, parseLsEntries, hp]
    | ok ent =>
      simp only [lsLoop, parseLsEntries, hp]
      rw [ih]
      cases hr : parseLsEntries rest with
      | error e => simp
      | ok ents =>
        simp only [List.length_cons, List.length_append, List.length_singleton,
          List.length_nil, List.range'_succ, List.append_assoc,
          List.singleton_append, Nat.zero_add]

/-- C8: each `ls` output line is split on whitespace; its first token is
parsed as a non-negative integer, a success making the child a file with
that declared size and a failure making it a directory placeholder with
empty children; the second token becomes the child's name; and processing
`Ls` appends the parsed children, in line order, to the current entry's
existing children without any de-duplication (the appended ids are the
fresh heap ids following `s.arena.length`). -/
theorem C8_ls_processing (s : BuildState) (lines : List String)
    (ents : List FSEntryNode) (o t0 t1 : String) (ts : List String)
    (cs : List SharedId)
    (hsplit : split_whitespace o = t0 :: t1 :: ts)
    (hcur : (s.arena.getD s.current dummyNode).children = some cs)
    (hparse : parseLsEntries lines = .ok ents) :
    parseLsEntry o =
      .ok ⟨t1, if (parse_usize t0).isSome then none else some [], parse_usize t0⟩ ∧
    step s ⟨.Ls, lines⟩ =
      .ok { s with arena := ((s.arena ++ ents).set s.current
        { s.arena.getD s.current dummyNode with
            children := some (cs ++ List.range' s.arena.length ents.length) }) } := by
  constructor
  · simp [parseLsEntry, hsplit]
  · simp only [step, hcur, lsLoop_eq, hparse]

/-- Witness for C8: an `ls` with output `dir a` and `100 b` in the initial
state appends a directory placeholder and a file of size 100 as children 1
and 2 of the root. -/
theorem C8_ls_processing_witness :
    parseLsEntry "dir a" =
      .ok ⟨"a", if (parse_usize "dir").isSome then none else some [],
        parse_usize "dir"⟩ ∧
    step (initState "/") ⟨.Ls, ["dir a", "100 b"]⟩ =
      .ok { initState "/" with arena :=
        (((initState "/").arena ++
            ([⟨"a", some [], none⟩, ⟨"b", none, some 100⟩] : List FSEntryNode)).set 0
          { (initState "/").arena.getD 0 dummyNode with
              children := some ([] ++ List.range' 1 2) }) } :=
  C8_ls_processing (initState "/") ["dir a", "100 b"]
    [⟨"a", some [], none⟩, ⟨"b", none, some 100⟩] "dir a" "dir" "a" [] []
    rfl rfl rfl

theorem getD_append_left (l l' : List FSEntryNode) (i : Nat) (h : i < l.length) :
    (l ++ l').getD i dummyNode = l.getD i dummyNode := by
  simp [List.getD_eq_getElem?_getD, List.getElem?_append, h]

theorem getD_snoc_length (l : List FSEntryNode) (x : FSEntryNode) :
    (l ++ [x]).getD l.length dummyNode = x := by
  simp [List.getD_eq_getElem?_getD, List.getElem?_concat_length]

theorem getD_set_self (l : List FSEntryNode) (i : Nat) (x : FSEntryNode)
    (h : i < l.length) :
    (l.set i x).getD i dummyNode = x := by
  simp [List.getD_eq_getElem?_getD, List.getElem?_set, h]

theorem getD_set_ne (l : List FSEntryNode) (i j : Nat) (x : FSEntryNode)
    (h : i ≠ j) :
    (l.set i x).getD j dummyNode = l.getD j dummyNode := by
  simp [List.getD_eq_getElem?_getD, List.getElem?_set, h]

theorem lt_length_of_children_isSome (l : List FSEntryNode) (i : Nat)
    (h : ((l.getD i dummyNode).children).isSome) : i < l.length := by
  by_contra hge
  push_neg at hge
  rw [List.getD_eq_getElem?_getD, List.getElem?_eq_none hge] at h
  simp [dummyNode, FSEntryNode.children] at h

theorem getD_mem (l : List FSEntryNode) (i : Nat) (h : i < l.length) :
    l.getD i dummyNode ∈ l := by
  rw [List.getD_eq_getElem?_getD, List.getElem?_eq_getElem h]
  exact List.getElem_mem h

theorem parseLsEntry_xor (o : String) (ent : FSEntryNode)
    (h : parseLsEntry o = .ok ent) : FileXorDir ent := by
  simp only [parseLsEntry] at h
  split at h
  · exact absurd h (by simp)
  · rename_i t0 ht0
    split at h
    · exact absurd h (by simp)
    · rename_i name hname
      injection h with h'
      subst h'
      cases hp : parse_usize t0 with
      | none => left; simp [FileXorDir, hp]
      | some v => right; simp [FileXorDir, hp]

theorem parseLsEntries_xor (lines : List String) (ents : List FSEntryNode)
    (h : parseLsEntries lines = .ok ents) :
    ∀ e ∈ ents, FileXorDir e := by
  induction lines generalizing ents with
  | nil =>
    simp only [parseLsEntries] at h
    injection h with h'
    subst h'
    intro e he
    exact absurd he (by simp)
  | cons o rest ih =>
    simp only [parseLsEntries] at h
    split at h
    · exact absurd h (by simp)
    · rename_i ent hent
      split at h
      · exact absurd h (by simp)
      · rename_i ents' hents
        injection h with h'
        subst h'
        intro e he
        rcases List.mem_cons.mp he with rfl | he'
        · exact parseLsEntry_xor o e hent
        · exact ih ents' hents e he'

theorem xor_of_getD_children (l : List FSEntryNode) (i : Nat)
    (cs : List SharedId) (hl : ∀ e ∈ l, FileXorDir e)
    (hc : (l.getD i dummyNode).children = some cs) :
    ¬ (l.getD i dummyNode).implicit_size.isSome ∧ i < l.length := by
  have hlt : i < l.length := lt_length_of_children_isSome l i (by rw [hc]; rfl)
  have hx := hl _ (getD_mem l i hlt)
  refine ⟨?_, hlt⟩
  rcases hx with ⟨_, h2⟩ | ⟨h1, _⟩
  · exact h2
  · exact absurd (by rw [hc]; rfl : (l.getD i dummyNode).children.isSome) h1

theorem step_preserves_xor (s : BuildState) (c : Command) (s' : BuildState)
    (hs : ∀ e ∈ s.arena, FileXorDir e) (h : step s c = .ok s') :
    ∀ e ∈ s'.arena, FileXorDir e := by
  cases c with
  | mk kind output =>
    cases kind with
    | Cd dir_name =>
      simp only [step] at h
      split at h
      · split at h
        · exact absurd h (by simp)
        · split at h
          · exact absurd h (by simp)
          · injection h with h'
            subst h'
            exact hs
      · split at h
        · rename_i cs hcs
          injection h with h'
          subst h'
          obtain ⟨himp, hlt⟩ := xor_of_getD_children s.arena s.current cs hs hcs
          intro e he
          rcases List.mem_append.mp he with he' | he'
          · rcases List.mem_or_eq_of_mem_set he' with he'' | rfl
            · exact hs e he''
            · left
              refine ⟨by simp, by simpa using himp⟩
          · rcases List.mem_cons.mp he' with rfl | he''
            · left; simp [FileXorDir]
            · exact absurd he'' (by simp)
        · injection h with h'
          subst h'
          intro e he
          rcases List.mem_append.mp he with he' | he'
          · exact hs e he'
          · rcases List.mem_cons.mp he' with rfl | he''
            · left; simp [FileXorDir]
            · exact absurd he'' (by simp)
    | Ls =>
      simp only [step] at h
      split at h
      · injection h with h'
        subst h'
        exact hs
      · rename_i cs hcs
        rw [lsLoop_eq] at h
        cases hpe : parseLsEntries output with
        | error err =>
          simp only [hpe] at h
          exact Except.noConfusion h
        | ok ents =>
          simp only [hpe] at h
          injection h with h'
          subst h'
          obtain ⟨himp, hlt⟩ := xor_of_getD_children s.arena s.current cs hs hcs
          intro e he
          rcases List.mem_or_eq_of_mem_set he with he' | rfl
          · rcases List.mem_append.mp he' with he'' | he''
            · exact hs e he''
            · exact parseLsEntries_xor output ents hpe e he''
          · left
            refine ⟨by simp, by simpa using himp⟩

theorem replay_preserves_xor (cmds : List Command) (s s' : BuildState)
    (hs : ∀ e ∈ s.arena, FileXorDir e) (h : replay s cmds = .ok s') :
    ∀ e ∈ s'.arena, FileXorDir e := by
  induction cmds generalizing s with
  | nil =>
    simp only [replay] at h
    injection h with h'
    subst h'
    exact hs
  | cons c rest ih =>
    simp only [replay] at h
    split at h
    · exact absurd h (by simp)
    · rename_i s1 hstep
      exact ih s1 (step_preserves_xor s c s1 hs hstep) h

/-- C9: every entry in the heap of a successfully built filesystem is a
file xor a directory — exactly one of `children` and `implicit_size` is
present.  This covers the root created from the first `cd`, every
directory created by a later `cd`, and every child appended during `ls`
processing. -/
theorem C9_file_xor_directory (cmds : List Command) (st : BuildState)
    (h : build_fs cmds = .ok st) :
    ∀ e ∈ st.arena,
      (e.children.isSome ∧ ¬ e.implicit_size.isSome) ∨
      (¬ e.children.isSome ∧ e.implicit_size.isSome) := by
  cases cmds with
  | nil => exact absurd h (by simp [build_fs])
  | cons c rest =>
    cases c with
    | mk kind output =>
      cases kind with
      | Ls => exact absurd h (by simp [build_fs])
      | Cd n =>
        refine replay_preserves_xor rest (initState n) st ?_ h
        intro e he
        simp only [initState, List.mem_singleton] at he
        subst he
        left
        simp [FileXorDir]

/-- Witness for C9: applying the invariant to the file entry `b` in the
heap built from the demo command sequence. -/
theorem C9_file_xor_directory_witness :
    ((⟨"b", none, some 100⟩ : FSEntryNode).children.isSome ∧
      ¬ (⟨"b", none, some 100⟩ : FSEntryNode).implicit_size.isSome) ∨
    (¬ (⟨"b", none, some 100⟩ : FSEntryNode).children.isSome ∧
      (⟨"b", none, some 100⟩ : FSEntryNode).implicit_size.isSome) :=
  C9_file_xor_directory demoCmds demoFinal rfl ⟨"b", none, some 100⟩ (by decide)

theorem getD_append_length_eq (l : List FSEntryNode) (x : FSEntryNode)
    (i : Nat) (h : i = l.length) : (l ++ [x]).getD i dummyNode = x := by
  subst h
  exact getD_snoc_length l x

theorem initState_good (n : String) : GoodState (initState n) := by
  constructor
  · rfl
  · intro d m hm
    simp only [initState] at hm
    split at hm
    · injection hm with h'
      subst h'
      rfl
    · exact Option.noConfusion hm

theorem step_preserves_good (s : BuildState) (c : Command) (s' : BuildState)
    (hg : GoodState s) (h : step s c = .ok s') : GoodState s' := by
  obtain ⟨hcur, hmap⟩ := hg
  cases c with
  | mk kind output =>
    cases kind with
    | Cd dir_name =>
      simp only [step] at h
      split at h
      · split at h
        · exact Except.noConfusion h
        · rename_i d hdep
          split at h
          · exact Except.noConfusion h
          · rename_i e he
            injection h with h'
            subst h'
            exact ⟨hmap d e he, hmap⟩
      · split at h
        · rename_i cs hcs
          injection h with h'
          subst h'
          have hlt : s.current < s.arena.length :=
            lt_length_of_children_isSome s.arena s.current (by rw [hcs]; rfl)
          have hlenset : (s.arena.set s.current
              { s.arena.getD s.current dummyNode with
                  children := some (cs ++ [s.arena.length]) }).length = s.arena.length :=
            List.length_set s.arena s.current _
          constructor
          · show (((s.arena.set s.current
                { s.arena.getD s.current dummyNode with
                    children := some (cs ++ [s.arena.length]) }) ++
                  [(⟨dir_name, some [], none⟩ : FSEntryNode)]).getD
                s.arena.length dummyNode).children.isSome
            rw [getD_append_length_eq _ _ _ hlenset.symm]
            rfl
          · intro d m hm
            replace hm : (if d = s.depth + 1 then some s.arena.length
                else s.entries_at_depth d) = some m := hm
            show (((s.arena.set s.current
                { s.arena.getD s.current dummyNode with
                    children := some (cs ++ [s.arena.length]) }) ++
                  [(⟨dir_name, some [], none⟩ : FSEntryNode)]).getD m dummyNode).children.isSome
            split at hm
            · injection hm with h2
              subst h2
              rw [getD_append_length_eq _ _ _ hlenset.symm]
              rfl
            · have hold := hmap d m hm
              have hmlt : m < s.arena.length :=
                lt_length_of_children_isSome s.arena m hold
              have hmlt' : m < (s.arena.set s.current
                  { s.arena.getD s.current dummyNode with
                      children := some (cs ++ [s.arena.length]) }).length := by
                rw [hlenset]
                exact hmlt
              rw [getD_append_left _ _ _ hmlt']
              by_cases hmc : m = s.current
              · subst hmc
                rw [getD_set_self _ _ _ hmlt]
                rfl
              · rw [getD_set_ne _ _ _ _ (fun hh => hmc hh.symm)]
                exact hold
        · rename_i hnone
          rw [hnone] at hcur
          exact absurd hcur (by simp)
    | Ls =>
      simp only [step] at h
      split at h
      · injection h with h'
        subst h'
        exact ⟨hcur, hmap⟩
      · rename_i cs hcs
        rw [lsLoop_eq] at h
        cases hpe : parseLsEntries output with
        | error err =>
          simp only [hpe] at h
          exact Except.noConfusion h
        | ok ents =>
          simp only [hpe] at h
          injection h with h'
          subst h'
          have hlt : s.current < s.arena.length :=
            lt_length_of_children_isSome s.arena s.current (by rw [hcs]; rfl)
          have hlt2 : s.current < (s.arena ++ ents).length :=
            hlt.trans_le (by rw [List.length_append]; exact Nat.le_add_right _ _)
          constructor
          · rw [getD_set_self _ _ _ hlt2]
            rfl
          · intro d m hm
            have hold := hmap d m hm
            have hmlt : m < s.arena.length :=
              lt_length_of_children_isSome s.arena m hold
            by_cases hmc : m = s.current
            · subst hmc
              rw [getD_set_self _ _ _ hlt2]
              rfl
            · rw [getD_set_ne _ _ _ _ (fun hh => hmc hh.symm),
                getD_append_left _ _ _ hmlt]
              exact hold

/-- C10: during any replay from the state the root `cd` creates, the
current entry always has `children` present.  The invariant `GoodState`
(current entry and every depth-recorded entry are directories) holds
initially and is preserved by every successful step; under it the
directory guard of the `cd name` branch always succeeds — the new
directory is linked as a child, the depth incremented and the new depth
recorded — and the guard of the `ls` branch always succeeds as well, so
the silent-skip path (appending below a non-directory current entry) is
unreachable. -/
theorem C10_no_silent_skip (s s' : BuildState) (c : Command)
    (n dir_name : String) (out : List String) (hg : GoodState s) :
    GoodState (initState n) ∧
    (step s c = .ok s' → GoodState s') ∧
    (∃ cs, (s.arena.getD s.current dummyNode).children = some cs) ∧
    (dir_name ≠ ".." →
      ∃ cs, (s.arena.getD s.current dummyNode).children = some cs ∧
        step s ⟨.Cd dir_name, out⟩ = .ok
          { arena := ((s.arena.set s.current
              { s.arena.getD s.current dummyNode with
                  children := some (cs ++ [s.arena.length]) }) ++
                [⟨dir_name, some [], none⟩]),
            current := s.arena.length,
            depth := s.depth + 1,
            entries_at_depth := fun k =>
              if k = s.depth + 1 then some s.arena.length
              else s.entries_at_depth k }) := by
  obtain ⟨cs, hcs⟩ := Option.isSome_iff_exists.mp hg.1
  refine ⟨initState_good n, fun hstep => step_preserves_good s c s' hg hstep,
    ⟨cs, hcs⟩, fun hdd => ⟨cs, hcs, ?_⟩⟩
  simp only [step, if_neg hdd, hcs]

/-- Witness for C10: stepping `cd a` from the freshly created root state
yields the depth-1 demo state, which still satisfies the invariant. -/
theorem C10_no_silent_skip_witness : GoodState demoAscState :=
  (C10_no_silent_skip (initState "/") demoAscState ⟨.Cd "a", []⟩ "x" "a" []
    (initState_good "/")).2.1 rfl

end Clabby
